import Mathlib

/-!
Shallow embedding of the Khisba GIS analysis pipeline (src/app.py).

Dates are modelled as integer day numbers (`pd.date_range(start, end, freq='D')`
enumerates the days from `start` to `end` inclusive and is empty when
`start > end`; `strftime` is an injective formatting step irrelevant to the
claims).  Floating-point scalars are modelled as rationals; the opaque
transcendental and random inputs of the demo generator (`np.sin`,
`np.random.normal`) are passed in as function parameters, so every theorem
holds for all possible values of those inputs.
-/

namespace Khisba

/-- One per-index series as stored in `results[index]` (src/app.py:310-313):
a list of dates and a list of values, where a value may be absent (`None`). -/
structure SeriesData where
  dates : List Int
  values : List (Option ℚ)
deriving DecidableEq, Repr

/-- The `results` mapping (a Python dict, i.e. an insertion-ordered mapping
from index name to series), modelled as an association list in insertion
order.  The UI multiselect yields distinct index names. -/
abbrev AnalysisResult := List (String × SeriesData)

/-- One row of the summary table built at src/app.py:423-434.  The code stores
`Mean`, `Min` and `Max` as strings formatted with `:.4f`; those displayed
numbers are modelled as rationals rounded to 4 decimal places. -/
structure SummaryRow where
  Index : String
  Mean : ℚ
  Min : ℚ
  Max : ℚ
  DataPoints : ℕ
deriving DecidableEq, Repr

/-- One row of the export table built at src/app.py:559-566. -/
structure ExportRow where
  Date : Int
  Index : String
  Value : Option ℚ
deriving DecidableEq, Repr

/-- Python's `f"{x:.4f}"` display formatting, modelled as rounding a rational
to 4 decimal places. -/
def round4 (q : ℚ) : ℚ := (round (q * 10000) : ℤ) / 10000

/-- Python's `min(values)` on a nonempty list (the `[]` case is unreachable:
the code only calls it under the `if values:` guard). -/
def listMin : List ℚ → ℚ
  | [] => 0
  | x :: xs => xs.foldl min x

/-- Python's `max(values)` on a nonempty list. -/
def listMax : List ℚ → ℚ
  | [] => 0
  | x :: xs => xs.foldl max x

/-- The comprehension `[v for v in data['values'] if v is not None]`
(src/app.py:426). -/
def nonAbsent (vals : List (Option ℚ)) : List ℚ := vals.filterMap id

/-- The dict appended at src/app.py:428-434 for one index, given its list of
non-absent values. -/
def summaryRowOf (name : String) (vs : List ℚ) : SummaryRow :=
  { Index := name
  , Mean := round4 (vs.sum / (vs.length : ℚ))
  , Min := round4 (listMin vs)
  , Max := round4 (listMax vs)
  , DataPoints := vs.length }

/-- One iteration of the summary loop (src/app.py:424-434): the body of
`for index, data in results.items()`, appending to the accumulated list. -/
def summary_step (acc : List SummaryRow) (e : String × SeriesData) :
    List SummaryRow :=
  if e.2.values = [] then acc
  else
    let vs := nonAbsent e.2.values
    if vs = [] then acc else acc ++ [summaryRowOf e.1 vs]

/-- The summary table `summary_data` (src/app.py:423-434), built by iterating
the results mapping in insertion order. -/
def summary_data (results : AnalysisResult) : List SummaryRow :=
  results.foldl summary_step []

/-- The rows one entry contributes to the summary table (used to state order
and membership properties of `summary_data`). -/
def summaryOf (e : String × SeriesData) : List SummaryRow :=
  if e.2.values = [] then []
  else
    let vs := nonAbsent e.2.values
    if vs = [] then [] else [summaryRowOf e.1 vs]

/-- The rows one entry contributes to the export table, in its series order
(spec-side description used to state ordering properties of `export_data`). -/
def rowsOf (e : String × SeriesData) : List ExportRow :=
  (e.2.dates.zip e.2.values).map (fun p => { Date := p.1, Index := e.1, Value := p.2 })

/-- One iteration of the inner export loop (src/app.py:561-566): the body of
`for date, value in zip(data['dates'], data['values'])`. -/
def export_step (name : String) (acc : List ExportRow) (p : Int × Option ℚ) :
    List ExportRow :=
  acc ++ [{ Date := p.1, Index := name, Value := p.2 }]

/-- The export table `export_data` (src/app.py:559-566): the nested loops over
the results mapping and the zipped date/value pairs. -/
def export_data (results : AnalysisResult) : List ExportRow :=
  results.foldl (fun acc e => (e.2.dates.zip e.2.values).foldl (export_step e.1) acc) []

/-- The non-absent observations of a series as (date, value) pairs (the
spec-side notion used by the round-trip claim). -/
def nonAbsentPairs (d : SeriesData) : List (Int × ℚ) :=
  (d.dates.zip d.values).filterMap (fun p => p.2.map (fun v => (p.1, v)))

/-- `pd.date_range(start, end, freq='D')` (src/app.py:286): the days from `s`
to `e` inclusive, empty when `e < s`. -/
def dateRange (s e : Int) : List Int :=
  (List.range (e - s + 1).toNat).map (fun i : ℕ => s + (i : Int))

/-- `np.clip(v, 0, 1)` (src/app.py:308). -/
def clip01 (q : ℚ) : ℚ := min (max q 0) 1

/-- The pre-clip value of the demo generator for one index and one day
(src/app.py:292-305).  `sinTab p t` stands for `np.sin(2*np.pi*t/p)` and
`noise idx t` for the `np.random.normal` sample drawn in loop iteration
`idx` for day `t`; both are opaque inputs of the model. -/
def demoValue (sinTab noise : ℕ → ℕ → ℚ) (idx : ℕ) (name : String) (t : ℕ) : ℚ :=
  let base := sinTab 365 t * (3 / 10) + 1 / 2
  if name = "NDVI" then base + noise idx t + 1 / 10
  else if name = "EVI" then base * (8 / 10) + noise idx t + 3 / 20
  else if name = "SAVI" then base * (9 / 10) + noise idx t + 1 / 5
  else if name = "NDWI" then sinTab 180 t * (1 / 5) + 3 / 10 + noise idx t
  else base + noise idx t + 1 / 4

/-- The series the demo generator stores for one index (src/app.py:292-313):
one clipped value per day of the date range, dates formatted from the same
range. -/
def demoSeries (sinTab noise : ℕ → ℕ → ℚ) (idx : ℕ) (name : String) (s e : Int) :
    SeriesData :=
  let ds := dateRange s e
  { dates := ds
  , values := (List.range ds.length).map
      (fun t => some (clip01 (demoValue sinTab noise idx name t))) }

/-- The `for idx, index in enumerate(selected_indices)` loop inside the `try`
block (src/app.py:290-313), with the loop body abstracted as a fallible step:
a raised exception propagates out and discards everything built so far. -/
def extractLoop (step : ℕ → String → Except String SeriesData) :
    ℕ → List String → Except String AnalysisResult
  | _, [] => .ok []
  | k, name :: rest =>
    match step k name with
    | .error msg => .error msg
    | .ok d =>
      match extractLoop step (k + 1) rest with
      | .error msg => .error msg
      | .ok r => .ok ((name, d) :: r)

/-- The run-analysis control flow (src/app.py:276-319): an empty selection is
rejected with an error before anything runs; otherwise the whole loop runs
inside one `try`, and `st.session_state.analysis_results` is assigned only
when no iteration raised — any exception is caught by the single `except`,
an error is shown, and no results mapping is produced. -/
def run_analysis_gen (step : ℕ → String → Except String SeriesData)
    (indices : List String) : Option AnalysisResult :=
  if indices.isEmpty then none
  else
    match extractLoop step 0 indices with
    | .ok r => some r
    | .error _ => none

/-- The concrete demo run (src/app.py:276-319): the loop body never raises,
it always produces the generated series. -/
def run_analysis (sinTab noise : ℕ → ℕ → ℚ) (indices : List String) (s e : Int) :
    Option AnalysisResult :=
  run_analysis_gen (fun idx name => .ok (demoSeries sinTab noise idx name s e)) indices

/-- The pure result of a loop in which every step succeeds. -/
def buildSeries (f : ℕ → String → SeriesData) : ℕ → List String → AnalysisResult
  | _, [] => []
  | k, name :: rest => (name, f k name) :: buildSeries f (k + 1) rest

/-- The session state initialised at src/app.py:132-137. -/
structure SessionState where
  authenticated : Bool
  analysis_results : Option AnalysisResult
  selected_area : Option String
deriving Repr

/-- Initial session state (src/app.py:132-137). -/
def initialState : SessionState :=
  { authenticated := false, analysis_results := none, selected_area := none }

/-- What one script run renders: the login page (ending in `st.stop()` before
any dashboard widget, src/app.py:140-169) or the dashboard (src/app.py:171-). -/
inductive Page
  | login
  | dashboard
deriving DecidableEq, Repr

/-- The authentication gate at src/app.py:140: the dashboard is reached only
when the flag is set. -/
def renderPage (st : SessionState) : Page :=
  if st.authenticated then Page.dashboard else Page.login

/-- The sign-in handler (src/app.py:156-161): sets the flag when the password
is `admin`, otherwise leaves the state unchanged and shows an error (the
returned Bool). -/
def submitLogin (st : SessionState) (password : String) : SessionState × Bool :=
  if password = "admin" then ({ st with authenticated := true }, false)
  else (st, true)

/-- Opaque-input instantiation used for concrete runs: all sine samples and
noise samples are zero. -/
def zeroTab : ℕ → ℕ → ℚ := fun _ _ => 0

/-- A loop-body oracle in which extraction of the NDWI index raises a backend
error and every other index succeeds with an empty series. -/
def stepFail : ℕ → String → Except String SeriesData :=
  fun _ name =>
    if name = "NDWI" then .error "quota exceeded"
    else .ok { dates := [], values := [] }

/-- A results mapping holding one series whose single observation is absent. -/
def exC1 : AnalysisResult := [("NDVI", { dates := [0], values := [none] })]

/-- A results mapping with one all-absent series, for the round-trip claim. -/
def exC5 : AnalysisResult := [("NDWI", { dates := [3], values := [none] })]

/-- A two-index results mapping with division-free values, used to instantiate
universally quantified theorems at a concrete input. -/
def exC5w : AnalysisResult :=
  [("NDVI", { dates := [0, 1], values := [some 1, none] }),
   ("EVI", { dates := [0], values := [some 0] })]

/-- The worked example of the spec: NDVI has observations
(day 0, 0.42), (day 7, absent), (day 14, 0.51); NDWI failed and is present
with an empty series. -/
def specExample : AnalysisResult :=
  [("NDVI", { dates := [0, 7, 14], values := [some (21 / 50), none, some (51 / 100)] }),
   ("NDWI", { dates := [], values := [] })]

/-! Characterizations of the accumulator loops. -/

theorem foldl_append_flatMap {α β : Type} (g : α → List β) :
    ∀ (l : List α) (acc : List β),
      l.foldl (fun a x => a ++ g x) acc = acc ++ l.flatMap g := by
  intro l
  induction l with
  | nil => intro acc; simp
  | cons x l ih => intro acc; simp [ih, List.append_assoc]

theorem foldl_export_step (name : String) (l : List (Int × Option ℚ)) :
    ∀ acc : List ExportRow,
      l.foldl (export_step name) acc
        = acc ++ l.map (fun p => { Date := p.1, Index := name, Value := p.2 }) := by
  induction l with
  | nil => intro acc; simp
  | cons p l ih => intro acc; simp [export_step, ih, List.append_assoc]

theorem export_data_eq (results : AnalysisResult) :
    export_data results = results.flatMap rowsOf := by
  have h1 : export_data results = results.foldl (fun acc e => acc ++ rowsOf e) [] := by
    unfold export_data
    congr 1
    funext acc e
    rw [foldl_export_step]
    rfl
  rw [h1]
  simpa using foldl_append_flatMap rowsOf results []

theorem summary_step_eq (acc : List SummaryRow) (e : String × SeriesData) :
    summary_step acc e = acc ++ summaryOf e := by
  by_cases h1 : e.2.values = []
  · simp [summary_step, summaryOf, h1]
  · by_cases h2 : nonAbsent e.2.values = []
    · simp [summary_step, summaryOf, h1, h2]
    · simp [summary_step, summaryOf, h1, h2]

theorem summary_data_eq (results : AnalysisResult) :
    summary_data results = results.flatMap summaryOf := by
  suffices h : ∀ acc, results.foldl summary_step acc = acc ++ results.flatMap summaryOf by
    simpa [summary_data] using h []
  induction results with
  | nil => intro acc; simp
  | cons e rs ih => intro acc; simp [summary_step_eq, ih, List.append_assoc]

/-! Python `min`/`max` over a nonempty list. -/

theorem foldl_min_mem (xs : List ℚ) : ∀ a : ℚ, xs.foldl min a ∈ a :: xs := by
  induction xs with
  | nil => intro a; simp
  | cons x xs ih =>
    intro a
    rw [List.foldl_cons]
    rcases List.mem_cons.mp (ih (min a x)) with h | h
    · rw [h]
      rcases min_choice a x with h1 | h1 <;> rw [h1] <;> simp
    · simp [h]

theorem foldl_min_le (xs : List ℚ) : ∀ a b : ℚ, b ∈ a :: xs → xs.foldl min a ≤ b := by
  induction xs with
  | nil =>
    intro a b hb
    simp only [List.mem_singleton] at hb
    simp [hb]
  | cons x xs ih =>
    intro a b hb
    rw [List.foldl_cons]
    rcases List.mem_cons.mp hb with h | h
    · rw [h]
      exact le_trans (ih (min a x) (min a x) (by simp)) (min_le_left a x)
    · rcases List.mem_cons.mp h with h2 | h2
      · rw [h2]
        exact le_trans (ih (min a x) (min a x) (by simp)) (min_le_right a x)
      · exact ih (min a x) b (by simp [h2])

theorem foldl_max_mem (xs : List ℚ) : ∀ a : ℚ, xs.foldl max a ∈ a :: xs := by
  induction xs with
  | nil => intro a; simp
  | cons x xs ih =>
    intro a
    rw [List.foldl_cons]
    rcases List.mem_cons.mp (ih (max a x)) with h | h
    · rw [h]
      rcases max_choice a x with h1 | h1 <;> rw [h1] <;> simp
    · simp [h]

theorem foldl_le_max (xs : List ℚ) : ∀ a b : ℚ, b ∈ a :: xs → b ≤ xs.foldl max a := by
  induction xs with
  | nil =>
    intro a b hb
    simp only [List.mem_singleton] at hb
    simp [hb]
  | cons x xs ih =>
    intro a b hb
    rw [List.foldl_cons]
    rcases List.mem_cons.mp hb with h | h
    · rw [h]
      exact le_trans (le_max_left a x) (ih (max a x) (max a x) (by simp))
    · rcases List.mem_cons.mp h with h2 | h2
      · rw [h2]
        exact le_trans (le_max_right a x) (ih (max a x) (max a x) (by simp))
      · exact ih (max a x) b (by simp [h2])

theorem listMin_mem {l : List ℚ} (h : l ≠ []) : listMin l ∈ l := by
  cases l with
  | nil => exact absurd rfl h
  | cons x xs => simpa [listMin] using foldl_min_mem xs x

theorem listMin_le {l : List ℚ} {b : ℚ} (hb : b ∈ l) : listMin l ≤ b := by
  cases l with
  | nil => simp at hb
  | cons x xs => simpa [listMin] using foldl_min_le xs x b hb

theorem listMax_mem {l : List ℚ} (h : l ≠ []) : listMax l ∈ l := by
  cases l with
  | nil => exact absurd rfl h
  | cons x xs => simpa [listMax] using foldl_max_mem xs x

theorem le_listMax {l : List ℚ} {b : ℚ} (hb : b ∈ l) : b ≤ listMax l := by
  cases l with
  | nil => simp at hb
  | cons x xs => simpa [listMax] using foldl_le_max xs x b hb

/-! Per-entry facts about the summary and export tables. -/

theorem summaryOf_eq_nil {e : String × SeriesData} (h : nonAbsent e.2.values = []) :
    summaryOf e = [] := by
  by_cases h1 : e.2.values = [] <;> simp [summaryOf, h1, h]

theorem summaryOf_eq_singleton {e : String × SeriesData} (h : nonAbsent e.2.values ≠ []) :
    summaryOf e = [summaryRowOf e.1 (nonAbsent e.2.values)] := by
  have h1 : e.2.values ≠ [] := by
    intro hc
    exact h (by simp [hc, nonAbsent])
  simp [summaryOf, h1, h]

theorem summaryOf_index {row : SummaryRow} {e : String × SeriesData}
    (h : row ∈ summaryOf e) : row.Index = e.1 := by
  by_cases h2 : nonAbsent e.2.values = []
  · rw [summaryOf_eq_nil h2] at h
    simp at h
  · rw [summaryOf_eq_singleton h2] at h
    rw [List.mem_singleton.mp h]
    rfl

theorem rowsOf_index {r : ExportRow} {e : String × SeriesData}
    (h : r ∈ rowsOf e) : r.Index = e.1 := by
  rcases List.mem_map.mp h with ⟨p, _, rfl⟩
  rfl

theorem mem_flatMap_rowsOf {r : ExportRow} {rs : AnalysisResult}
    (h : r ∈ rs.flatMap rowsOf) : r.Index ∈ rs.map Prod.fst := by
  rcases List.mem_flatMap.mp h with ⟨a, ha, hr⟩
  rw [rowsOf_index hr]
  exact List.mem_map_of_mem _ ha

/-! Facts about the extraction loop. -/

theorem extractLoop_total (f : ℕ → String → SeriesData) :
    ∀ (indices : List String) (k : ℕ),
      extractLoop (fun i n => .ok (f i n)) k indices = .ok (buildSeries f k indices) := by
  intro indices
  induction indices with
  | nil => intro k; rfl
  | cons n rest ih =>
    intro k
    simp only [extractLoop, ih (k + 1), buildSeries]

theorem extractLoop_keys (step : ℕ → String → Except String SeriesData) :
    ∀ (indices : List String) (k : ℕ) (r : AnalysisResult),
      extractLoop step k indices = .ok r → r.map Prod.fst = indices := by
  intro indices
  induction indices with
  | nil =>
    intro k r h
    simp [extractLoop] at h
    simp [← h]
  | cons n rest ih =>
    intro k r h
    simp only [extractLoop] at h
    cases hstep : step k n with
    | error msg => rw [hstep] at h; exact absurd h (by simp)
    | ok d =>
      rw [hstep] at h
      cases hrest : extractLoop step (k + 1) rest with
      | error msg => rw [hrest] at h; exact absurd h (by simp)
      | ok r2 =>
        rw [hrest] at h
        simp only [Except.ok.injEq] at h
        rw [← h]
        simp [ih (k + 1) r2 hrest]

theorem buildSeries_fst (f : ℕ → String → SeriesData) :
    ∀ (indices : List String) (k : ℕ), (buildSeries f k indices).map Prod.fst = indices := by
  intro indices
  induction indices with
  | nil => intro k; rfl
  | cons n rest ih => intro k; simp [buildSeries, ih]

theorem buildSeries_mem (f : ℕ → String → SeriesData) :
    ∀ (indices : List String) (k : ℕ),
      ∀ entry ∈ buildSeries f k indices, ∃ i, entry.2 = f i entry.1 := by
  intro indices
  induction indices with
  | nil => intro k entry h; simp [buildSeries] at h
  | cons n rest ih =>
    intro k entry h
    rcases List.mem_cons.mp h with h1 | h1
    · exact ⟨k, by rw [h1]⟩
    · exact ih (k + 1) entry h1

/-! Facts about the demo generator. -/

theorem dateRange_length (s e : Int) : (dateRange s e).length = (e - s + 1).toNat := by
  unfold dateRange
  rw [List.length_map, List.length_range]

theorem dateRange_nil {s e : Int} (h : e < s) : dateRange s e = [] := by
  unfold dateRange
  rw [Int.toNat_of_nonpos (by omega)]
  rfl

theorem clip01_nonneg (q : ℚ) : 0 ≤ clip01 q :=
  le_min (le_max_right q 0) zero_le_one

theorem clip01_le_one (q : ℚ) : clip01 q ≤ 1 :=
  min_le_right _ _

theorem demoSeries_dates (sinTab noise : ℕ → ℕ → ℚ) (i : ℕ) (name : String) (s e : Int) :
    (demoSeries sinTab noise i name s e).dates = dateRange s e := rfl

theorem demoSeries_values_length (sinTab noise : ℕ → ℕ → ℚ) (i : ℕ) (name : String)
    (s e : Int) :
    (demoSeries sinTab noise i name s e).values.length = (dateRange s e).length := by
  simp [demoSeries]

theorem demoSeries_values_mem (sinTab noise : ℕ → ℕ → ℚ) (i : ℕ) (name : String)
    (s e : Int) :
    ∀ v ∈ (demoSeries sinTab noise i name s e).values,
      ∃ q, v = some q ∧ 0 ≤ q ∧ q ≤ 1 := by
  intro v hv
  simp only [demoSeries, List.mem_map] at hv
  rcases hv with ⟨t, _, rfl⟩
  exact ⟨clip01 (demoValue sinTab noise i name t), rfl, clip01_nonneg _, clip01_le_one _⟩

theorem nonAbsent_length_all_some :
    ∀ l : List (Option ℚ), (∀ v ∈ l, v.isSome) → (nonAbsent l).length = l.length := by
  intro l
  induction l with
  | nil => intro _; rfl
  | cons v l ih =>
    intro h
    cases v with
    | none =>
      have := h none (List.mem_cons_self _ _)
      simp at this
    | some q =>
      have : nonAbsent (some q :: l) = q :: nonAbsent l := by simp [nonAbsent]
      rw [this]
      simp [ih (fun v hv => h v (List.mem_cons_of_mem _ hv))]

theorem summary_map_const (c : ℕ) :
    ∀ r : AnalysisResult,
      (∀ entry ∈ r, ∃ row, summaryOf entry = [row] ∧ row.DataPoints = c) →
      (summary_data r).map SummaryRow.DataPoints = r.map (fun _ => c) := by
  intro r
  induction r with
  | nil => intro _; rfl
  | cons a l ih =>
    intro h
    rcases h a (List.mem_cons_self _ _) with ⟨row, h1, h2⟩
    rw [summary_data_eq, List.flatMap_cons, List.map_append, h1]
    have ihl := ih (fun entry he => h entry (List.mem_cons_of_mem _ he))
    rw [summary_data_eq] at ihl
    simp [h2, ihl]

/-! Claim theorems. -/

/-- Claim C1, counterexample: the export flattening at src/app.py:559-566 zips
dates with values and emits a row for every pair with no `None` check, so a
series whose single observation is absent contributes one row — a row whose
Value is absent — rather than zero rows as the claim states. -/
theorem C1_counterexample :
    export_data exC1 = [{ Date := 0, Index := "NDVI", Value := none }] ∧
      export_data exC1 ≠ [] := by
  exact ⟨by decide, by decide⟩

/-- Claim C1 (amended): the export flattening emits exactly one ExportRow per
zipped (date, value) pair across all indices, whether or not the value is
absent; absent observations are emitted as rows with an absent Value, so a
series of n all-absent observations contributes n rows, not zero. -/
theorem C1_export_row_count (results : AnalysisResult) :
    (export_data results).length
      = (results.map (fun e => min e.2.dates.length e.2.values.length)).sum := by
  rw [export_data_eq]
  induction results with
  | nil => rfl
  | cons e rs ih => simp [rowsOf, ih, List.length_zip]

/-- Claim C5, counterexample: flattening and re-grouping by Index yields, for
the all-absent NDWI series, the pair (day 3, absent) — while the set of
non-absent observations of that series is empty.  The reconstructed set is
therefore not the set of non-absent observations. -/
theorem C5_counterexample :
    ((export_data exC5).filter (fun r => r.Index == "NDWI")).map (fun r => (r.Date, r.Value))
        = [(3, (none : Option ℚ))] ∧
      (nonAbsentPairs { dates := [3], values := [none] }).map (fun p => (p.1, some p.2))
        = ([] : List (Int × Option ℚ)) := by
  exact ⟨by decide, by decide⟩

/-- Claim C5 (amended): flattening followed by re-grouping the rows by their
Index column reconstructs, for each index of a results mapping with distinct
keys, exactly the zipped (date, value) pairs of that index's original series —
absent observations included, since the export does not skip them. -/
theorem C5_regroup_zip (results : AnalysisResult)
    (hnd : (results.map Prod.fst).Nodup) :
    ∀ e ∈ results,
      ((export_data results).filter (fun r => r.Index == e.1)).map (fun r => (r.Date, r.Value))
        = e.2.dates.zip e.2.values := by
  rw [export_data_eq]
  revert hnd
  induction results with
  | nil => intro _ e he; simp at he
  | cons a rs ih =>
    intro hnd e he
    have hnd1 : a.1 ∉ rs.map Prod.fst := by
      simp only [List.map_cons, List.nodup_cons] at hnd
      exact hnd.1
    have hnd2 : (rs.map Prod.fst).Nodup := by
      simp only [List.map_cons, List.nodup_cons] at hnd
      exact hnd.2
    rw [List.flatMap_cons, List.filter_append, List.map_append]
    rcases List.mem_cons.mp he with h | h
    · have hA : (rowsOf a).filter (fun r => r.Index == a.1) = rowsOf a := by
        apply List.filter_eq_self.mpr
        intro r hr
        simp [rowsOf_index hr]
      have hB : (rs.flatMap rowsOf).filter (fun r => r.Index == a.1) = [] := by
        apply List.filter_eq_nil_iff.mpr
        intro r hr
        simp only [beq_iff_eq]
        intro hc
        exact hnd1 (by rw [← hc]; exact mem_flatMap_rowsOf hr)
      rw [h, hA, hB, List.map_nil, List.append_nil]
      unfold rowsOf
      rw [List.map_map]
      have : ((fun r : ExportRow => (r.Date, r.Value)) ∘
          (fun p : Int × Option ℚ => ({ Date := p.1, Index := a.1, Value := p.2 } : ExportRow)))
          = fun p : Int × Option ℚ => p := by
        funext p
        rfl
      rw [this, List.map_id']
    · have hne2 : a.1 ≠ e.1 := by
        intro hc
        exact hnd1 (by rw [hc]; exact List.mem_map_of_mem _ h)
      have hA : (rowsOf a).filter (fun r => r.Index == e.1) = [] := by
        apply List.filter_eq_nil_iff.mpr
        intro r hr
        simp only [beq_iff_eq]
        rw [rowsOf_index hr]
        exact hne2
      rw [hA, List.map_nil, List.nil_append]
      exact ih hnd2 e h

/-- Claim C5 witness: the amended round-trip at a concrete two-index result —
re-grouping recovers each index's zipped pairs, absent values included. -/
theorem C5_witness :
    ((export_data exC5w).filter (fun r => r.Index == "NDVI")).map (fun r => (r.Date, r.Value))
        = [((0 : Int), (some 1 : Option ℚ)), (1, none)] ∧
      ((export_data exC5w).filter (fun r => r.Index == "EVI")).map (fun r => (r.Date, r.Value))
        = [((0 : Int), (some 0 : Option ℚ))] :=
  ⟨C5_regroup_zip exC5w (by decide) ("NDVI", { dates := [0, 1], values := [some 1, none] })
      (List.mem_cons_self _ _),
    C5_regroup_zip exC5w (by decide) ("EVI", { dates := [0], values := [some 0] })
      (List.mem_cons_of_mem _ (List.mem_cons_self _ _))⟩

/-- Claim C6: the export row sequence is index-major — the rows of the results
mapping's entries are concatenated in the mapping's iteration order, and within
each entry the rows are that entry's zipped series in series order; nothing is
re-sorted by date. -/
theorem C6_export_order (results : AnalysisResult) :
    export_data results = results.flatMap rowsOf :=
  export_data_eq results

/-- Claim C8: the sequence of summary rows follows the iteration (insertion)
order of the results mapping: its Index column is exactly the key sequence of
the mapping restricted to the entries with at least one non-absent value, not
sorted by name or by any statistic. -/
theorem C8_summary_order (results : AnalysisResult) :
    (summary_data results).map SummaryRow.Index
      = (results.filter (fun e => !(nonAbsent e.2.values).isEmpty)).map Prod.fst := by
  rw [summary_data_eq]
  induction results with
  | nil => rfl
  | cons e rs ih =>
    rw [List.flatMap_cons, List.map_append, ih, List.filter_cons]
    by_cases h : nonAbsent e.2.values = []
    · rw [summaryOf_eq_nil h]
      simp [h]
    · rw [summaryOf_eq_singleton h]
      have : (nonAbsent e.2.values).isEmpty = false := by
        simpa [List.isEmpty_iff] using h
      simp [this, summaryRowOf]

/-- Claim C3: for an index present in the results whose series has at least
one non-absent value, the summary table holds a row for it whose DataPoints is
the number of non-absent observations, whose Mean is the 4-decimal display
rounding of the exact arithmetic mean of the unrounded non-absent values (the
number m with m * count = sum), and whose Min and Max are the display
roundings of exact extrema of the unrounded non-absent values (members of the
list bounding it below resp. above).  Rounding happens only at display time:
the statistics are computed from the unrounded values. -/
theorem C3_summary_stats (results : AnalysisResult) (name : String) (d : SeriesData)
    (hmem : (name, d) ∈ results)
    (hvs : nonAbsent d.values ≠ []) :
    ∃ row ∈ summary_data results,
      row.Index = name ∧
      row.DataPoints = (nonAbsent d.values).length ∧
      (∃ m : ℚ, m * ((nonAbsent d.values).length : ℚ) = (nonAbsent d.values).sum
        ∧ row.Mean = round4 m) ∧
      (∃ mn ∈ nonAbsent d.values, (∀ x ∈ nonAbsent d.values, mn ≤ x)
        ∧ row.Min = round4 mn) ∧
      (∃ mx ∈ nonAbsent d.values, (∀ x ∈ nonAbsent d.values, x ≤ mx)
        ∧ row.Max = round4 mx) := by
  refine ⟨summaryRowOf name (nonAbsent d.values), ?_, rfl, rfl, ?_, ?_, ?_⟩
  · rw [summary_data_eq]
    apply List.mem_flatMap.mpr
    refine ⟨(name, d), hmem, ?_⟩
    rw [summaryOf_eq_singleton hvs]
    exact List.mem_singleton.mpr rfl
  · refine ⟨(nonAbsent d.values).sum / ((nonAbsent d.values).length : ℚ), ?_, rfl⟩
    apply div_mul_cancel₀
    have hlen : (nonAbsent d.values).length ≠ 0 := by
      intro hc
      exact hvs (List.length_eq_zero.mp hc)
    exact Nat.cast_ne_zero.mpr hlen
  · exact ⟨listMin (nonAbsent d.values), listMin_mem hvs,
      fun x hx => listMin_le hx, rfl⟩
  · exact ⟨listMax (nonAbsent d.values), listMax_mem hvs,
      fun x hx => le_listMax hx, rfl⟩

/-- Claim C3 witness: the spec's worked example — the NDVI series with
observations 0.42, absent, 0.51 has a summary row with 2 data points, mean
0.465, min 0.42, max 0.51 (up to display rounding). -/
theorem C3_witness :
    ∃ row ∈ summary_data specExample,
      row.Index = "NDVI" ∧
      row.DataPoints = (nonAbsent [some (21 / 50), none, some (51 / 100)]).length ∧
      (∃ m : ℚ, m * ((nonAbsent [some (21 / 50), none, some (51 / 100)]).length : ℚ)
          = (nonAbsent [some (21 / 50), none, some (51 / 100)]).sum
        ∧ row.Mean = round4 m) ∧
      (∃ mn ∈ nonAbsent [some (21 / 50), none, some (51 / 100)],
        (∀ x ∈ nonAbsent [some (21 / 50), none, some (51 / 100)], mn ≤ x)
        ∧ row.Min = round4 mn) ∧
      (∃ mx ∈ nonAbsent [some (21 / 50), none, some (51 / 100)],
        (∀ x ∈ nonAbsent [some (21 / 50), none, some (51 / 100)], x ≤ mx)
        ∧ row.Max = round4 mx) :=
  C3_summary_stats specExample "NDVI"
    { dates := [0, 7, 14], values := [some (21 / 50), none, some (51 / 100)] }
    (List.mem_cons_self _ _) (by simp [nonAbsent])

/-- Claim C4: an index present in the results (with distinct keys) whose
series has zero non-absent observations contributes no summary row at all: no
row of the summary table bears its name. -/
theorem C4_empty_excluded (results : AnalysisResult) (name : String) (d : SeriesData)
    (hmem : (name, d) ∈ results)
    (hnd : (results.map Prod.fst).Nodup)
    (hvs : nonAbsent d.values = []) :
    ∀ row ∈ summary_data results, row.Index ≠ name := by
  intro row hrow hIdx
  rw [summary_data_eq] at hrow
  rcases List.mem_flatMap.mp hrow with ⟨e, he, hre⟩
  have h1 : row.Index = e.1 := summaryOf_index hre
  have h2 : e.1 = name := by rw [← h1, hIdx]
  have h3 : e = (name, d) :=
    List.inj_on_of_nodup_map hnd he hmem (by simpa using h2)
  rw [h3] at hre
  rw [summaryOf_eq_nil hvs] at hre
  exact List.not_mem_nil row hre

/-- Claim C4 witness: in the spec's worked example, the failed NDWI index with
its empty series has no summary row — no row of the summary bears its name. -/
theorem C4_witness :
    ((summary_data specExample).all (fun row => row.Index != "NDWI")) = true := by
  apply List.all_eq_true.mpr
  intro row hrow
  have h := C4_empty_excluded specExample "NDWI" { dates := [], values := [] }
    (List.mem_cons_of_mem _ (List.mem_cons_self _ _)) (by decide) rfl row hrow
  simpa using h

/-- Claim C2, counterexample: with a non-empty selection of two indices where
extraction of the second (NDWI) fails, the run produces no results mapping at
all — the failing index is not present with an empty series, and neither is
the succeeding one, because the single try/except around the whole loop at
src/app.py:281-319 aborts the entire run. -/
theorem C2_counterexample :
    run_analysis_gen stepFail ["NDVI", "NDWI"] = none := by
  decide

/-- Claim C2 (amended): a failure while extracting one index aborts the run
for all indices — the exception propagates out of the loop, is caught by the
single handler, an error is reported, and no results mapping is produced; only
when every iteration succeeds is a results mapping produced, and then every
requested index is present exactly once, in request order. -/
theorem C2_failure_aborts_run (step : ℕ → String → Except String SeriesData)
    (indices : List String) (hne : indices ≠ []) :
    (∀ msg, extractLoop step 0 indices = .error msg →
      run_analysis_gen step indices = none) ∧
    (∀ r, extractLoop step 0 indices = .ok r →
      run_analysis_gen step indices = some r ∧ r.map Prod.fst = indices) := by
  have hie : indices.isEmpty = false := by
    cases indices with
    | nil => exact absurd rfl hne
    | cons a l => rfl
  constructor
  · intro msg h
    simp [run_analysis_gen, hie, h]
  · intro r h
    refine ⟨by simp [run_analysis_gen, hie, h], extractLoop_keys step indices 0 r h⟩

/-- Claim C2 witness: the amended behaviour at concrete inputs — a run with a
failing NDWI index yields no results, a run whose indices all succeed yields
one entry per requested index in request order. -/
theorem C2_witness :
    run_analysis_gen stepFail ["EVI", "NDWI"] = none ∧
    (run_analysis_gen stepFail ["NDVI", "EVI"]
        = some [("NDVI", { dates := [], values := [] }),
                ("EVI", { dates := [], values := [] })] ∧
      ([("NDVI", ({ dates := [], values := [] } : SeriesData)),
        ("EVI", { dates := [], values := [] })]).map Prod.fst = ["NDVI", "EVI"]) :=
  ⟨(C2_failure_aborts_run stepFail ["EVI", "NDWI"] (by decide)).1
      "quota exceeded" (by rfl),
    (C2_failure_aborts_run stepFail ["NDVI", "EVI"] (by decide)).2
      [("NDVI", { dates := [], values := [] }), ("EVI", { dates := [], values := [] })]
      (by rfl)⟩

/-- Claim C7, counterexample: a run with a non-empty selection and a start
date strictly after the end date is not rejected — the pipeline runs to
completion and stores a results mapping (with an empty series per index,
since the date range is empty), instead of reporting an error and producing
no results as the claim states. -/
theorem C7_counterexample :
    run_analysis zeroTab zeroTab ["NDVI"] 5 3
      = some [("NDVI", { dates := [], values := [] })] := by
  decide

/-- Claim C7 (amended): an empty index selection is reported immediately and
the pipeline does not run (no results are produced); but a start date after
the end date is not rejected — the pipeline runs and produces a results
mapping in which every requested index has an empty series. -/
theorem C7_preconditions (sinTab noise : ℕ → ℕ → ℚ) (indices : List String) (s e : Int) :
    run_analysis sinTab noise [] s e = none ∧
    (e < s → indices ≠ [] →
      ∃ r, run_analysis sinTab noise indices s e = some r ∧
        r.map Prod.fst = indices ∧
        ∀ entry ∈ r, entry.2.dates = [] ∧ entry.2.values = []) := by
  constructor
  · rfl
  · intro hlt hne
    have hie : indices.isEmpty = false := by
      cases indices with
      | nil => exact absurd rfl hne
      | cons a l => rfl
    refine ⟨buildSeries (fun i n => demoSeries sinTab noise i n s e) 0 indices, ?_, ?_, ?_⟩
    · simp [run_analysis, run_analysis_gen, hie, extractLoop_total]
    · exact buildSeries_fst _ indices 0
    · intro entry hentry
      rcases buildSeries_mem _ indices 0 entry hentry with ⟨i, hi⟩
      have hdr : dateRange s e = [] := dateRange_nil hlt
      constructor
      · rw [hi, demoSeries_dates, hdr]
      · rw [hi]
        simp [demoSeries, hdr]

/-- Claim C7 witness: the amended behaviour at concrete inputs — an empty
selection yields no results; a run over the reversed range (start 5, end 3)
yields a results mapping whose single NDVI entry has an empty series. -/
theorem C7_witness :
    run_analysis zeroTab zeroTab [] 5 3 = none ∧
    (∃ r, run_analysis zeroTab zeroTab ["NDVI"] 5 3 = some r ∧
      r.map Prod.fst = ["NDVI"] ∧
      ∀ entry ∈ r, entry.2.dates = [] ∧ entry.2.values = []) :=
  ⟨(C7_preconditions zeroTab zeroTab ["NDVI"] 5 3).1,
    (C7_preconditions zeroTab zeroTab ["NDVI"] 5 3).2 (by decide) (by decide)⟩

theorem map_const_congr {α β γ : Type} (c : γ) :
    ∀ (l1 : List α) (l2 : List β), l1.length = l2.length →
      l1.map (fun _ => c) = l2.map (fun _ => c) := by
  intro l1
  induction l1 with
  | nil =>
    intro l2 h
    cases l2 with
    | nil => rfl
    | cons b l2 => simp at h
  | cons a l1 ih =>
    intro l2 h
    cases l2 with
    | nil => simp at h
    | cons b l2 =>
      simp only [List.map_cons, List.length_cons, Nat.add_right_cancel_iff] at h ⊢
      exact congrArg (List.cons c) (ih l2 h)

/-- Claim C9: for every demo run with start ≤ end and a non-empty selection,
the produced results mapping has one entry per requested index, and every
entry's series has its dates equal to the generated date range (one entry per
day from start to end inclusive), as many values as dates, and every value
present (not absent) and clipped into [0, 1]; consequently the summary's
DataPoints count for every index equals the number of days in the range. -/
theorem C9_demo_invariants (sinTab noise : ℕ → ℕ → ℚ) (indices : List String) (s e : Int)
    (hse : s ≤ e) (hne : indices ≠ []) :
    ∃ r, run_analysis sinTab noise indices s e = some r ∧
      r.map Prod.fst = indices ∧
      (∀ entry ∈ r,
        entry.2.dates = dateRange s e ∧
        entry.2.values.length = entry.2.dates.length ∧
        entry.2.dates.length = (e - s + 1).toNat ∧
        ∀ v ∈ entry.2.values, ∃ q, v = some q ∧ 0 ≤ q ∧ q ≤ 1) ∧
      (summary_data r).map SummaryRow.DataPoints
        = indices.map (fun _ => (e - s + 1).toNat) := by
  have hie : indices.isEmpty = false := by
    cases indices with
    | nil => exact absurd rfl hne
    | cons a l => rfl
  refine ⟨buildSeries (fun i n => demoSeries sinTab noise i n s e) 0 indices,
    ?_, buildSeries_fst _ indices 0, ?_, ?_⟩
  · simp [run_analysis, run_analysis_gen, hie, extractLoop_total]
  · intro entry hentry
    rcases buildSeries_mem _ indices 0 entry hentry with ⟨i, hi⟩
    refine ⟨by rw [hi, demoSeries_dates], ?_, ?_, ?_⟩
    · rw [hi, demoSeries_values_length, demoSeries_dates]
    · rw [hi, demoSeries_dates, dateRange_length]
    · rw [hi]
      exact demoSeries_values_mem sinTab noise i entry.1 s e
  · have hperentry :
        ∀ entry ∈ buildSeries (fun i n => demoSeries sinTab noise i n s e) 0 indices,
          ∃ row, summaryOf entry = [row] ∧ row.DataPoints = (e - s + 1).toNat := by
      intro entry hentry
      rcases buildSeries_mem _ indices 0 entry hentry with ⟨i, hi⟩
      have hall : ∀ v ∈ entry.2.values, v.isSome := by
        intro v hv
        rw [hi] at hv
        rcases demoSeries_values_mem sinTab noise i entry.1 s e v hv with ⟨q, hq, _, _⟩
        simp [hq]
      have hlen : entry.2.values.length = (e - s + 1).toNat := by
        rw [hi, demoSeries_values_length, dateRange_length]
      have hnz : (e - s + 1).toNat ≠ 0 := by omega
      have hvs_len : (nonAbsent entry.2.values).length = (e - s + 1).toNat := by
        rw [nonAbsent_length_all_some entry.2.values hall, hlen]
      have hvs_ne : nonAbsent entry.2.values ≠ [] := by
        intro hc
        rw [hc] at hvs_len
        exact hnz hvs_len.symm
      exact ⟨summaryRowOf entry.1 (nonAbsent entry.2.values),
        summaryOf_eq_singleton hvs_ne, hvs_len⟩
    rw [summary_map_const ((e - s + 1).toNat) _ hperentry]
    apply map_const_congr
    have hkeys := buildSeries_fst (fun i n => demoSeries sinTab noise i n s e) indices 0
    calc (buildSeries (fun i n => demoSeries sinTab noise i n s e) 0 indices).length
        = ((buildSeries (fun i n => demoSeries sinTab noise i n s e) 0 indices).map
            Prod.fst).length := (List.length_map _ _).symm
      _ = indices.length := by rw [hkeys]

/-- Claim C9 witness: a concrete three-day run over NDVI with all opaque
inputs zero satisfies every invariant of the claim. -/
theorem C9_witness :
    ∃ r, run_analysis zeroTab zeroTab ["NDVI"] 0 2 = some r ∧
      r.map Prod.fst = ["NDVI"] ∧
      (∀ entry ∈ r,
        entry.2.dates = dateRange 0 2 ∧
        entry.2.values.length = entry.2.dates.length ∧
        entry.2.dates.length = ((2 : Int) - 0 + 1).toNat ∧
        ∀ v ∈ entry.2.values, ∃ q, v = some q ∧ 0 ≤ q ∧ q ≤ 1) ∧
      (summary_data r).map SummaryRow.DataPoints
        = ["NDVI"].map (fun _ => ((2 : Int) - 0 + 1).toNat) :=
  C9_demo_invariants zeroTab zeroTab ["NDVI"] 0 2 (by decide) (by decide)

/-- Claim C10: the dashboard is rendered only in sessions whose authenticated
flag is true; the flag starts false (so the initial render is the login page),
submitting the exact password "admin" makes it true, and submitting any other
password leaves the session unauthenticated, shows an error, and the render
stops at the login page, never reaching the dashboard. -/
theorem C10_auth_gate :
    initialState.authenticated = false ∧
    (∀ st : SessionState, renderPage st = Page.dashboard ↔ st.authenticated = true) ∧
    (∀ pw : String, (submitLogin initialState pw).1.authenticated = true ↔ pw = "admin") ∧
    (∀ pw : String, (submitLogin initialState pw).2 = true ↔ pw ≠ "admin") ∧
    (∀ pw : String, renderPage (submitLogin initialState pw).1 = Page.login ↔ pw ≠ "admin") := by
  refine ⟨rfl, ?_, ?_, ?_, ?_⟩
  · intro st
    unfold renderPage
    cases h : st.authenticated <;> simp [h]
  · intro pw
    unfold submitLogin
    by_cases h : pw = "admin" <;> simp [h, initialState]
  · intro pw
    unfold submitLogin
    by_cases h : pw = "admin" <;> simp [h, initialState]
  · intro pw
    unfold submitLogin renderPage
    by_cases h : pw = "admin" <;> simp [h, initialState]

end Khisba
